import Mathlib

/-!
Shallow embedding of the `sht-led-demo-uno-r4` sketch: the scrolling
LED-matrix bar-chart buffer, its value-to-bitmap mapping, the startup
range calibration and the steady-state loop.

Conventions of the embedding:
* the `uint8_t frame[ROWS][COLUMNS]` grid becomes a function
  `Fin ROWS → Fin COLUMNS → Nat`; cells only ever hold 0 or 1;
* C `int` arithmetic is `Int`; `uint8_t` values are `Nat` reduced mod 256
  where the C code converts to `uint8_t`;
* the sensor's `float` temperature is modelled as an exact rational `ℚ`;
  the C cast `(uint8_t)x` of a nonnegative in-range float truncates
  toward zero, i.e. is `Int.toNat ⌊x⌋` (out-of-range casts are UB in C;
  theorems restrict to the defined range where it matters);
* a sensor read that may fail is an `Option ℚ`; the unbounded calibration
  retry loop is given explicit fuel, so "never terminates" is
  "returns `none` for every fuel".
-/

namespace ShtLedDemo

/-- `static const uint8_t COLUMNS = 12;` -/
abbrev COLUMNS : Nat := 12

/-- `static const uint8_t ROWS = 8;` -/
abbrev ROWS : Nat := 8

/-- `static const uint8_t TEMP_RANGE = 5;` -/
abbrev TEMP_RANGE : Nat := 5

/-- `static const double BASELINE_SCALE_FACTOR = 0.98;` (modelled exactly). -/
def BASELINE_SCALE_FACTOR : ℚ := 98 / 100

/-- The `uint8_t frame[ROWS][COLUMNS]` grid: row index 0 is the physical
top of the display. -/
abbrev Frame := Fin ROWS → Fin COLUMNS → Nat

/-- `uint8_t frame[ROWS][COLUMNS] = { 0 };` — the initial all-zero grid. -/
def initFrame : Frame := fun _ _ => 0

/-- The value stored into `frame[ROWS-1-rows][COLUMNS-1]` by `insert_right`:
`fill ? ((value-1) >= rows) : ((value-1) == rows)`.  `value` is the
`uint8_t` parameter (hence the mod 256), `rows` the `int` loop counter;
after integer promotion `value - 1` is signed `int` arithmetic. -/
def barCell (value : Nat) (fill : Bool) (rows : Nat) : Nat :=
  match fill with
  | true => if ((value % 256 : Nat) : Int) - 1 ≥ (rows : Int) then 1 else 0
  | false => if ((value % 256 : Nat) : Int) - 1 = (rows : Int) then 1 else 0

/-- `void insert_right(uint8_t frame[ROWS][COLUMNS], uint8_t value, bool fill)`:
shift every column one slot to the left (discarding column 0), then write
the new bar into the rightmost column.  The sequential C loop reads
`frame[rows][columns]` before that slot is ever overwritten, so the
result is: column `c` gets the old column `c+1`, and column `COLUMNS-1`
gets the fresh bar. -/
def insert_right (f : Frame) (value : Nat) (fill : Bool) : Frame :=
  fun r c =>
    if h : c.val + 1 < COLUMNS then f r ⟨c.val + 1, h⟩
    else barCell value fill (ROWS - 1 - r.val)

/-- The cell of the rightmost column at vertical position `p` counted from
the bottom of the display; it is stored at grid row index `ROWS - 1 - p`. -/
def rightBar (f : Frame) (p : Fin ROWS) : Nat :=
  f ⟨ROWS - 1 - p.val, by have := p.isLt; omega⟩ ⟨COLUMNS - 1, by norm_num⟩

/-- The display range `[minVal, maxVal]` held in the globals
`uint8_t minVal; uint8_t maxVal;`. -/
structure Window where
  minVal : Nat
  maxVal : Nat
  deriving DecidableEq, Repr

/-- The window derivation of `setup()` from the first successful reading:
`minVal = (uint8_t)(BASELINE_SCALE_FACTOR * temperature);
 maxVal = minVal + TEMP_RANGE;`.
The cast truncates toward zero (defined for `0 ≤ x < 256`); the store of
`minVal + TEMP_RANGE` into the `uint8_t maxVal` reduces mod 256. -/
def calibrate (r : ℚ) : Window :=
  let minV := (Int.toNat ⌊BASELINE_SCALE_FACTOR * r⌋) % 256
  { minVal := minV, maxVal := (minV + TEMP_RANGE) % 256 }

/-- The raw quantization expression of `loop()` before the `uint8_t` cast:
`(temperature - minVal) / (maxVal - minVal) * ROWS` in exact arithmetic. -/
def displayValueRaw (t : ℚ) (w : Window) : ℚ :=
  (t - (w.minVal : ℚ)) / ((w.maxVal : ℚ) - (w.minVal : ℚ)) * (ROWS : ℚ)

/-- `uint8_t displayValue = (uint8_t)((temperature - minVal) / (maxVal - minVal) * ROWS);`
— truncation toward zero of the raw value (defined for `0 ≤ raw < 256`). -/
def displayValue (t : ℚ) (w : Window) : Nat :=
  (Int.toNat ⌊displayValueRaw t w⌋) % 256

/-- The clamped quantization the specification mandates: `displayValue`
clamped to `[0, ROWS]`.  This definition follows the spec's words, to be
compared with the code's unclamped `displayValue`. -/
def clampedDisplayValue (t : ℚ) (w : Window) : Int :=
  min (max ⌊displayValueRaw t w⌋ 0) (ROWS : Int)

/-- The mutable state the steady-state loop touches: the display buffer
and the calibrated window. -/
structure State where
  frame : Frame
  window : Window

/-- One iteration of `loop()`, fed the result of this cycle's sensor read:
on failure (`none`) it returns early; on success it inserts the quantized
value into the frame in filled mode.  The window is never written. -/
def loopStep (s : State) (reading : Option ℚ) : State :=
  match reading with
  | none => s
  | some t => { s with frame := insert_right s.frame (displayValue t s.window) true }

/-- Folding a sequence of per-cycle read results through `loop()`. -/
def loopRun (s : State) (rs : List (Option ℚ)) : State :=
  rs.foldl loopStep s

/-- Folding a sequence of successful readings' quantized values through
`insert_right` in filled mode (the only mode `loop()` uses). -/
def insertSeq (vs : List Nat) (f : Frame) : Frame :=
  vs.foldl (fun g v => insert_right g v true) f

/-- The calibration retry loop of `setup()`:
`while (!baselineInitialized) { if (!read()) { delay(500); continue; } ... }`.
`results n` is the outcome of the `n`-th read attempt, `i` the index of
the next attempt, and `fuel` bounds how many attempts we may observe.
On success at attempt `i` it returns `(i, calibrate r)`; `i` is then also
the number of `delay(500)` backoff calls performed (one per preceding
failed attempt).  Exhausted fuel returns `none`, so a loop that returns
`none` for every fuel never terminates. -/
def calibLoop (results : Nat → Option ℚ) : Nat → Nat → Option (Nat × Window)
  | _, 0 => none
  | i, fuel + 1 =>
    match results i with
    | some r => some (i, calibrate r)
    | none => calibLoop results (i + 1) fuel

/-! ## Helper lemmas about the bar pattern and one insertion -/

/-- Filled mode writes `1` at vertical position `rows` iff `rows < value`
(for a value that fits in `uint8_t`): `(value - 1) >= rows` in signed
`int` arithmetic is `rows < value`. -/
theorem barCell_filled (v rows : Nat) (hv : v ≤ 255) :
    barCell v true rows = if rows < v then 1 else 0 := by
  show (if ((v % 256 : Nat) : Int) - 1 ≥ (rows : Int) then 1 else 0)
      = if rows < v then 1 else 0
  rw [Nat.mod_eq_of_lt (by omega : v < 256)]
  by_cases h : rows < v
  · rw [if_pos (by omega), if_pos h]
  · rw [if_neg (by omega), if_neg h]

/-- Outline mode writes `1` at vertical position `rows` iff `rows + 1 = value`
(for a value that fits in `uint8_t`): `(value - 1) == rows` in signed
`int` arithmetic is `rows + 1 = value`, and is false everywhere when
`value = 0` since `-1` is not a row index. -/
theorem barCell_outline (v rows : Nat) (hv : v ≤ 255) :
    barCell v false rows = if rows + 1 = v then 1 else 0 := by
  show (if ((v % 256 : Nat) : Int) - 1 = (rows : Int) then 1 else 0)
      = if rows + 1 = v then 1 else 0
  rw [Nat.mod_eq_of_lt (by omega : v < 256)]
  by_cases h : rows + 1 = v
  · rw [if_pos (by omega), if_pos h]
  · rw [if_neg (by omega), if_neg h]

/-- The shift half of `insert_right`: every column except the last receives
the old contents of the column to its right. -/
theorem insert_shift (f : Frame) (v : Nat) (fill : Bool) (r : Fin ROWS)
    (c : Nat) (hc : c + 1 < COLUMNS) :
    insert_right f v fill r ⟨c, by omega⟩ = f r ⟨c + 1, hc⟩ := by
  unfold insert_right
  rw [dif_pos hc]

/-- The write half of `insert_right`: the rightmost column receives the
fresh bar pattern. -/
theorem insert_last (f : Frame) (v : Nat) (fill : Bool) (r : Fin ROWS)
    (c : Fin COLUMNS) (hc : c.val = COLUMNS - 1) :
    insert_right f v fill r c = barCell v fill (ROWS - 1 - r.val) := by
  have hcv := c.isLt
  unfold insert_right
  rw [dif_neg (by omega)]

/-- Reading the rightmost column of a freshly inserted frame at vertical
position `p` gives exactly the bar pattern at `p`: the double row-index
inversion `ROWS - 1 - (ROWS - 1 - p)` cancels. -/
theorem rightBar_insert (f : Frame) (v : Nat) (fill : Bool) (p : Fin ROWS) :
    rightBar (insert_right f v fill) p = barCell v fill p.val := by
  have hp := p.isLt
  unfold rightBar
  rw [insert_last _ _ _ _ _ rfl]
  simp only [Fin.val_mk]
  congr 1
  have hR : ROWS = 8 := rfl
  omega

/-! ## Claims about a single insertion (C3, C6, C7, C9, C10) -/

/-- Claim C3: for every `displayValue` in `[0, ROWS]`, a filled-mode
insertion lights, in the rightmost column, exactly the cells at vertical
positions `p` (counted from the bottom) with `p < displayValue`, and the
cell at vertical position `p` is stored at grid row index `ROWS - 1 - p`
(row 0 being the physical top), so higher values light cells nearer the
top. -/
theorem filled_bar (f : Frame) (v : Nat) (hv : v ≤ ROWS) (p : Nat) (hp : p < ROWS) :
    insert_right f v true ⟨ROWS - 1 - p, by omega⟩ ⟨COLUMNS - 1, by norm_num⟩
      = if p < v then 1 else 0 := by
  have hR : ROWS = 8 := rfl
  rw [insert_last _ _ _ _ _ rfl]
  simp only [Fin.val_mk]
  have h2 : ROWS - 1 - (ROWS - 1 - p) = p := by omega
  rw [h2, barCell_filled v p (by omega)]

theorem filled_bar_witness :
    (5 ≤ ROWS ∧ 2 < ROWS)
  ∧ insert_right initFrame 5 true ⟨ROWS - 1 - 2, by norm_num⟩ ⟨COLUMNS - 1, by norm_num⟩
      = if 2 < 5 then 1 else 0 :=
  ⟨⟨by norm_num, by norm_num⟩, filled_bar initFrame 5 (by norm_num) 2 (by norm_num)⟩

/-- Claim C6: for every `displayValue` in `[1, ROWS]`, an outline-mode
insertion lights exactly one cell in the rightmost column, the one at
vertical position `displayValue - 1` (i.e. `p + 1 = displayValue`), and
for `displayValue = 0` it lights zero cells there. -/
theorem outline_bar (f : Frame) (v : Nat) (hv : v ≤ ROWS) :
    (∀ p : Fin ROWS,
      rightBar (insert_right f v false) p = if p.val + 1 = v then 1 else 0)
  ∧ (Finset.univ.filter
        fun p : Fin ROWS => rightBar (insert_right f v false) p = 1).card
      = if v = 0 then 0 else 1 := by
  have hR : ROWS = 8 := rfl
  have key : ∀ p : Fin ROWS,
      rightBar (insert_right f v false) p = if p.val + 1 = v then 1 else 0 := by
    intro p
    rw [rightBar_insert, barCell_outline v p.val (by omega)]
  refine ⟨key, ?_⟩
  have hset : (Finset.univ.filter
        fun p : Fin ROWS => rightBar (insert_right f v false) p = 1)
      = (Finset.univ.filter fun p : Fin ROWS => p.val + 1 = v) := by
    apply Finset.filter_congr
    intro p _
    rw [key p]
    by_cases h : p.val + 1 = v
    · simp [h]
    · simp [h]
  rw [hset]
  have hv8 : v ≤ 8 := hv
  interval_cases v <;> decide

theorem outline_bar_witness :
    (4 ≤ ROWS)
  ∧ rightBar (insert_right initFrame 4 false) ⟨3, by norm_num⟩
      = if (3 : Nat) + 1 = 4 then 1 else 0 :=
  ⟨by norm_num, (outline_bar initFrame 4 (by norm_num)).1 ⟨3, by norm_num⟩⟩

/-- Claim C7: for `displayValue`s `a > b` in `[0, ROWS]`, the filled bar
for `a` lights a strict superset of the cells lit by the filled bar for
`b`: every cell of `b`'s bar, plus at least one cell lying above all of
`b`'s cells. -/
theorem fill_monotone (f : Frame) (a b : Nat) (ha : a ≤ ROWS) (hb : b < a) :
    (∀ p : Fin ROWS,
        rightBar (insert_right f b true) p = 1 → rightBar (insert_right f a true) p = 1)
  ∧ (∃ p : Fin ROWS,
        rightBar (insert_right f a true) p = 1
      ∧ rightBar (insert_right f b true) p = 0
      ∧ ∀ q : Fin ROWS, rightBar (insert_right f b true) q = 1 → q.val < p.val) := by
  have hR : ROWS = 8 := rfl
  have ha255 : a ≤ 255 := by omega
  have hb255 : b ≤ 255 := by omega
  have hchar : ∀ (v : Nat), v ≤ 255 → ∀ p : Fin ROWS,
      rightBar (insert_right f v true) p = if p.val < v then 1 else 0 := by
    intro v hv p
    rw [rightBar_insert, barCell_filled v p.val hv]
  constructor
  · intro p hp1
    rw [hchar b hb255 p] at hp1
    rw [hchar a ha255 p]
    by_cases h : p.val < b
    · rw [if_pos (by omega)]
    · rw [if_neg h] at hp1
      exact absurd hp1 (by norm_num)
  · have hbR : b < ROWS := by omega
    refine ⟨⟨b, hbR⟩, ?_, ?_, ?_⟩
    · rw [hchar a ha255 ⟨b, hbR⟩]
      simp only [Fin.val_mk]
      rw [if_pos hb]
    · rw [hchar b hb255 ⟨b, hbR⟩]
      simp only [Fin.val_mk]
      rw [if_neg (by omega)]
    · intro q hq
      rw [hchar b hb255 q] at hq
      by_cases h : q.val < b
      · exact h
      · rw [if_neg h] at hq
        exact absurd hq (by norm_num)

theorem fill_monotone_witness :
    (6 ≤ ROWS ∧ 2 < 6)
  ∧ rightBar (insert_right initFrame 6 true) ⟨1, by norm_num⟩ = 1 :=
  ⟨⟨by norm_num, by norm_num⟩,
    (fill_monotone initFrame 6 2 (by norm_num) (by norm_num)).1 ⟨1, by norm_num⟩
      (by decide)⟩

/-- Whatever the value and mode, the bar pattern only produces 0 or 1:
it is the conversion of a C boolean comparison to `uint8_t`. -/
theorem barCell_binary (v : Nat) (fill : Bool) (rows : Nat) :
    barCell v fill rows = 0 ∨ barCell v fill rows = 1 := by
  cases fill
  · show (if ((v % 256 : Nat) : Int) - 1 = (rows : Int) then 1 else 0) = 0
        ∨ (if ((v % 256 : Nat) : Int) - 1 = (rows : Int) then 1 else 0) = 1
    split
    · right; rfl
    · left; rfl
  · show (if ((v % 256 : Nat) : Int) - 1 ≥ (rows : Int) then 1 else 0) = 0
        ∨ (if ((v % 256 : Nat) : Int) - 1 ≥ (rows : Int) then 1 else 0) = 1
    split
    · right; rfl
    · left; rfl

/-- Claim C9: every cell of the display buffer is 0 or 1: the buffer
starts all-zero, and `insert_right` preserves the property for any value
and either fill mode, since shifted cells are copies and the rightmost
column is written from boolean comparison results. -/
theorem cells_binary :
    (∀ (r : Fin ROWS) (c : Fin COLUMNS), initFrame r c = 0)
  ∧ (∀ (f : Frame) (v : Nat) (fill : Bool),
      (∀ (r : Fin ROWS) (c : Fin COLUMNS), f r c = 0 ∨ f r c = 1) →
      ∀ (r : Fin ROWS) (c : Fin COLUMNS),
        insert_right f v fill r c = 0 ∨ insert_right f v fill r c = 1) := by
  constructor
  · intro r c
    rfl
  · intro f v fill hf r c
    unfold insert_right
    split
    · exact hf r _
    · exact barCell_binary v fill _

theorem cells_binary_witness :
    insert_right initFrame 200 false ⟨3, by norm_num⟩ ⟨11, by norm_num⟩ = 0
  ∨ insert_right initFrame 200 false ⟨3, by norm_num⟩ ⟨11, by norm_num⟩ = 1 :=
  cells_binary.2 initFrame 200 false (fun _ _ => Or.inl rfl)
    ⟨3, by norm_num⟩ ⟨11, by norm_num⟩

/-- Claim C10: for every value strictly above `ROWS` (up to the `uint8_t`
maximum 255) filled mode saturates — all `ROWS` cells of the rightmost
column are lit — while outline mode lights none of them; and for value 0
both modes light nothing, because `value - 1` is computed in signed `int`
arithmetic, not modulo `2^8`. -/
theorem oversized_value (f : Frame) (v : Nat) (h8 : ROWS < v) (h255 : v ≤ 255) :
    (∀ p : Fin ROWS, rightBar (insert_right f v true) p = 1)
  ∧ (∀ p : Fin ROWS, rightBar (insert_right f v false) p = 0)
  ∧ (∀ p : Fin ROWS, rightBar (insert_right f 0 true) p = 0)
  ∧ (∀ p : Fin ROWS, rightBar (insert_right f 0 false) p = 0) := by
  refine ⟨fun p => ?_, fun p => ?_, fun p => ?_, fun p => ?_⟩
  · have hp := p.isLt
    rw [rightBar_insert, barCell_filled v p.val h255, if_pos (by omega)]
  · have hp := p.isLt
    rw [rightBar_insert, barCell_outline v p.val h255, if_neg (by omega)]
  · rw [rightBar_insert, barCell_filled 0 p.val (by norm_num), if_neg (by omega)]
  · rw [rightBar_insert, barCell_outline 0 p.val (by norm_num), if_neg (by omega)]

theorem oversized_value_witness :
    (ROWS < 200 ∧ 200 ≤ 255)
  ∧ rightBar (insert_right initFrame 200 true) ⟨0, by norm_num⟩ = 1
  ∧ rightBar (insert_right initFrame 200 false) ⟨0, by norm_num⟩ = 0 :=
  ⟨⟨by norm_num, by norm_num⟩,
    (oversized_value initFrame 200 (by norm_num) (by norm_num)).1 ⟨0, by norm_num⟩,
    (oversized_value initFrame 200 (by norm_num) (by norm_num)).2.1 ⟨0, by norm_num⟩⟩

/-! ## The scroll FIFO property (C2) -/

theorem insertSeq_nil (g : Frame) : insertSeq [] g = g := rfl

theorem insertSeq_cons (v : Nat) (tl : List Nat) (g : Frame) :
    insertSeq (v :: tl) g = insertSeq tl (insert_right g v true) := rfl

/-- Columns far enough from the right edge are untouched by a short run of
insertions: after `k` insertions, column `c` holds what column `c + k`
held before (provided `c + k` stays on the grid). -/
theorem insertSeq_shift (vs : List Nat) (g : Frame) (r : Fin ROWS) (c : Nat)
    (h : c + vs.length < COLUMNS) :
    insertSeq vs g r ⟨c, by omega⟩ = g r ⟨c + vs.length, h⟩ := by
  induction vs generalizing g with
  | nil =>
    rw [insertSeq_nil]
    congr 1
  | cons v tl ih =>
    have hlen : (v :: tl).length = tl.length + 1 := List.length_cons v tl
    have h1 : c + tl.length < COLUMNS := by omega
    rw [insertSeq_cons, ih (insert_right g v true) h1]
    rw [insert_shift g v true r (c + tl.length) (by omega)]
    congr 1

/-- The value inserted `COLUMNS - c` steps before the end of the run is
what column `c` encodes: after inserting `vs` (reaching back at least to
column `c`), column `c` holds the bar of `vs[c + |vs| - COLUMNS]`. -/
theorem insertSeq_getD (vs : List Nat) (g : Frame) (r : Fin ROWS) (c : Nat)
    (hc : c < COLUMNS) (h : COLUMNS ≤ c + vs.length) :
    insertSeq vs g r ⟨c, hc⟩
      = barCell (vs.getD (c + vs.length - COLUMNS) 0) true (ROWS - 1 - r.val) := by
  induction vs generalizing g with
  | nil =>
    exfalso
    simp only [List.length_nil, Nat.add_zero] at h
    omega
  | cons v tl ih =>
    have hlen : (v :: tl).length = tl.length + 1 := List.length_cons v tl
    rw [insertSeq_cons]
    by_cases h2 : COLUMNS ≤ c + tl.length
    · rw [ih (insert_right g v true) h2]
      have hidx : c + (v :: tl).length - COLUMNS = (c + tl.length - COLUMNS) + 1 := by
        omega
      rw [hidx, List.getD_cons_succ]
    · have hlast : c + tl.length = COLUMNS - 1 := by omega
      have hlt : c + tl.length < COLUMNS := by omega
      rw [insertSeq_shift tl (insert_right g v true) r c hlt]
      rw [insert_last _ _ _ _ _ (by simp only [Fin.val_mk]; omega)]
      have hidx0 : c + (v :: tl).length - COLUMNS = 0 := by omega
      rw [hidx0, List.getD_cons_zero]

/-- Claim C2: inserting `N ≥ COLUMNS` values into the initially empty
buffer leaves the rightmost slot encoding the last value `v_N` and the
leftmost slot encoding `v_(N-COLUMNS+1)` (with one-based numbering, i.e.
zero-based index `N - COLUMNS`); each single insertion copies every
slot's bar into the slot immediately to its left, discarding the old
leftmost slot, so values older than the last `COLUMNS` are gone. -/
theorem scroll_fifo (vs : List Nat) (h : COLUMNS ≤ vs.length) :
    (∀ r : Fin ROWS, insertSeq vs initFrame r ⟨COLUMNS - 1, by norm_num⟩
        = barCell (vs.getD (vs.length - 1) 0) true (ROWS - 1 - r.val))
  ∧ (∀ r : Fin ROWS, insertSeq vs initFrame r ⟨0, by norm_num⟩
        = barCell (vs.getD (vs.length - COLUMNS) 0) true (ROWS - 1 - r.val))
  ∧ (∀ (f : Frame) (v : Nat) (fill : Bool) (r : Fin ROWS) (c : Nat)
        (hc : c + 1 < COLUMNS),
        insert_right f v fill r ⟨c, by omega⟩ = f r ⟨c + 1, hc⟩) := by
  have hC : COLUMNS = 12 := rfl
  refine ⟨fun r => ?_, fun r => ?_,
    fun f v fill r c hc => insert_shift f v fill r c hc⟩
  · rw [insertSeq_getD vs initFrame r (COLUMNS - 1) (by omega) (by omega)]
    have hidx : COLUMNS - 1 + vs.length - COLUMNS = vs.length - 1 := by omega
    rw [hidx]
  · rw [insertSeq_getD vs initFrame r 0 (by omega) (by omega)]
    have hidx : 0 + vs.length - COLUMNS = vs.length - COLUMNS := by omega
    rw [hidx]

/-- A twelve-value run used to instantiate the FIFO theorem. -/
def demoVs : List Nat := [0, 1, 2, 3, 4, 5, 6, 7, 9, 2, 4, 8]

theorem scroll_fifo_witness :
    COLUMNS ≤ demoVs.length
  ∧ insertSeq demoVs initFrame ⟨0, by norm_num⟩ ⟨COLUMNS - 1, by norm_num⟩ = 1
  ∧ insertSeq demoVs initFrame ⟨0, by norm_num⟩ ⟨0, by norm_num⟩ = 0 := by
  refine ⟨by decide, ?_, ?_⟩
  · have h1 := (scroll_fifo demoVs (by decide)).1 ⟨0, by norm_num⟩
    exact h1.trans (by decide)
  · have h2 := (scroll_fifo demoVs (by decide)).2.1 ⟨0, by norm_num⟩
    exact h2.trans (by decide)

/-! ## Failure semantics of the steady-state loop (C5) -/

/-- Claim C5: a failed sensor read makes the whole iteration a no-op: the
state (buffer and window) is returned unchanged, and a run over any
read-result sequence equals the run over just its successful readings —
failures are skipped, nothing is carried forward. -/
theorem failed_read_skips (s : State) (rs : List (Option ℚ)) :
    loopStep s none = s
  ∧ (loopStep s none).frame = s.frame
  ∧ loopRun s rs = (rs.filterMap id).foldl (fun t x => loopStep t (some x)) s := by
  refine ⟨rfl, rfl, ?_⟩
  induction rs generalizing s with
  | nil => rfl
  | cons o tl ih =>
    cases o with
    | none => exact ih s
    | some t => exact ih { s with frame := insert_right s.frame (displayValue t s.window) true }

/-! ## Calibration window (C4) and quantization (C1) -/

/-- The claim "`minVal = floor(scale_factor * r)`, `maxVal = minVal +
range_width` and `minVal < maxVal`, for every reading" fails on the code:
the bounds live in `uint8_t`, so a reading of 260 °C yields
`minVal = 254` but `maxVal = (254 + 5) mod 256 = 3`, and the window is
inverted. -/
theorem calibrate_overflow_ce :
    (calibrate 260).maxVal ≠ (calibrate 260).minVal + TEMP_RANGE
  ∧ ¬ ((calibrate 260).minVal < (calibrate 260).maxVal) := by
  have hf : ⌊BASELINE_SCALE_FACTOR * (260 : ℚ)⌋ = 254 := by
    rw [Int.floor_eq_iff]
    constructor
    · norm_num [BASELINE_SCALE_FACTOR]
    · norm_num [BASELINE_SCALE_FACTOR]
  constructor
  · simp only [calibrate, hf]
    decide
  · simp only [calibrate, hf]
    decide

/-- Claim C4 (amended): for a first successful calibration reading `r`
with `0 ≤ r` and `⌊scale_factor * r⌋ + range_width ≤ 255` (so that the
`uint8_t` window bounds do not overflow), calibration sets
`minVal = ⌊scale_factor * r⌋` and `maxVal = minVal + range_width`, hence
`minVal < maxVal`; and the steady-state loop never modifies the window,
so it is set exactly once. -/
theorem calibrate_window (r : ℚ) (h0 : 0 ≤ r)
    (h1 : ⌊BASELINE_SCALE_FACTOR * r⌋ + (TEMP_RANGE : Int) ≤ 255) :
    ((calibrate r).minVal : Int) = ⌊BASELINE_SCALE_FACTOR * r⌋
  ∧ (calibrate r).maxVal = (calibrate r).minVal + TEMP_RANGE
  ∧ (calibrate r).minVal < (calibrate r).maxVal
  ∧ (∀ (s : State) (o : Option ℚ), (loopStep s o).window = s.window) := by
  have hF0 : 0 ≤ ⌊BASELINE_SCALE_FACTOR * r⌋ :=
    Int.floor_nonneg.mpr (mul_nonneg (by norm_num [BASELINE_SCALE_FACTOR]) h0)
  have hT : (TEMP_RANGE : Int) = 5 := rfl
  have hT2 : TEMP_RANGE = 5 := rfl
  simp only [calibrate]
  refine ⟨by omega, by omega, by omega, fun s o => ?_⟩
  cases o
  · rfl
  · rfl

theorem calibrate_window_witness :
    ((0 : ℚ) ≤ 41 / 2
      ∧ ⌊BASELINE_SCALE_FACTOR * ((41 : ℚ) / 2)⌋ + (TEMP_RANGE : Int) ≤ 255)
  ∧ ((calibrate (41 / 2)).minVal : Int) = ⌊BASELINE_SCALE_FACTOR * ((41 : ℚ) / 2)⌋
  ∧ (calibrate (41 / 2)).maxVal = (calibrate (41 / 2)).minVal + TEMP_RANGE
  ∧ (calibrate (41 / 2)).minVal < (calibrate (41 / 2)).maxVal := by
  have hf : ⌊BASELINE_SCALE_FACTOR * ((41 : ℚ) / 2)⌋ = 20 := by
    rw [Int.floor_eq_iff]
    constructor
    · norm_num [BASELINE_SCALE_FACTOR]
    · norm_num [BASELINE_SCALE_FACTOR]
  have h0 : (0 : ℚ) ≤ 41 / 2 := by norm_num
  have h1 : ⌊BASELINE_SCALE_FACTOR * ((41 : ℚ) / 2)⌋ + (TEMP_RANGE : Int) ≤ 255 := by
    rw [hf]; norm_num
  obtain ⟨a, b, c, -⟩ := calibrate_window (41 / 2) h0 h1
  exact ⟨⟨h0, h1⟩, a, b, c⟩

/-- Claim C1 fails on the code: the quantization at the top of `loop()`
is not clamped.  With the window `{minVal = 20, maxVal = 25}` — exactly
the window calibration produces from a 20.5 °C reading — a reading of
26 °C quantizes to `⌊9.6⌋ = 9`, outside `[0, ROWS]`, while the clamped
value mandated by the specification is 8. -/
theorem quantization_unclamped :
    calibrate ((41 : ℚ) / 2) = ⟨20, 25⟩
  ∧ displayValue 26 ⟨20, 25⟩ = 9
  ∧ clampedDisplayValue 26 ⟨20, 25⟩ = 8
  ∧ ¬ (displayValue 26 ⟨20, 25⟩ ≤ ROWS) := by
  have hf : ⌊BASELINE_SCALE_FACTOR * ((41 : ℚ) / 2)⌋ = 20 := by
    rw [Int.floor_eq_iff]
    constructor
    · norm_num [BASELINE_SCALE_FACTOR]
    · norm_num [BASELINE_SCALE_FACTOR]
  have hraw : displayValueRaw 26 ⟨20, 25⟩ = 48 / 5 := by
    norm_num [displayValueRaw, ROWS]
  have hfl : ⌊displayValueRaw 26 ⟨20, 25⟩⌋ = 9 := by
    rw [hraw, Int.floor_eq_iff]
    constructor
    · norm_num
    · norm_num
  refine ⟨?_, ?_, ?_, ?_⟩
  · simp only [calibrate, hf]
    decide
  · simp only [displayValue, hfl]
    decide
  · simp only [clampedDisplayValue, hfl]
    decide
  · simp only [displayValue, hfl]
    decide

/-! ## Calibration retry loop (C8) -/

/-- If every read attempt fails, the calibration loop makes no progress:
no amount of fuel makes it return a window. -/
theorem calibLoop_all_fail (results : Nat → Option ℚ)
    (hfail : ∀ n, results n = none) :
    ∀ (fuel i : Nat), calibLoop results i fuel = none := by
  intro fuel
  induction fuel with
  | zero => intro i; rfl
  | succ f ih =>
    intro i
    simp only [calibLoop, hfail]
    exact ih (i + 1)

/-- If the first success (looking from attempt `i` onward) is `k` attempts
away, the loop returns that attempt's window once the fuel covers it,
after exactly `k` failed attempts (hence `k` backoff delays). -/
theorem calibLoop_first_success (results : Nat → Option ℚ) (r : ℚ) :
    ∀ (fuel k i : Nat), results (i + k) = some r →
      (∀ j, j < k → results (i + j) = none) → k < fuel →
      calibLoop results i fuel = some (i + k, calibrate r) := by
  intro fuel
  induction fuel with
  | zero =>
    intro k i _ _ hk
    exact absurd hk (Nat.not_lt_zero k)
  | succ f ih =>
    intro k i hk hfail hlt
    cases k with
    | zero =>
      rw [Nat.add_zero] at hk
      simp only [calibLoop, hk, Nat.add_zero]
    | succ k2 =>
      have h0 : results i = none := by
        have h := hfail 0 (Nat.succ_pos k2)
        rwa [Nat.add_zero] at h
      simp only [calibLoop, h0]
      have hk2 : results (i + 1 + k2) = some r := by
        rw [show i + 1 + k2 = i + (k2 + 1) from by omega]
        exact hk
      have hfail2 : ∀ j, j < k2 → results (i + 1 + j) = none := by
        intro j hj
        rw [show i + 1 + j = i + (j + 1) from by omega]
        exact hfail (j + 1) (by omega)
      have hres := ih k2 (i + 1) hk2 hfail2 (by omega)
      rw [hres]
      rw [show i + 1 + k2 = i + (k2 + 1) from by omega]

/-- Claim C8: the calibration loop terminates and produces the window
exactly when some read attempt succeeds.  If the first success is attempt
`k` (zero-based), then with any sufficient fuel it returns the window of
that first successful reading together with the count `k` of delayed
retries that preceded it; if every attempt fails, it returns `none` for
every fuel — an unbounded retry with no attempt limit. -/
theorem calibration_termination (results : Nat → Option ℚ) :
    (∀ (k : Nat) (r : ℚ), results k = some r → (∀ j, j < k → results j = none) →
      ∀ fuel, k < fuel → calibLoop results 0 fuel = some (k, calibrate r))
  ∧ ((∀ n, results n = none) → ∀ fuel, calibLoop results 0 fuel = none)
  ∧ ((∃ fuel w, calibLoop results 0 fuel = some w) ↔ ∃ n r, results n = some r) := by
  refine ⟨?_, fun hfail fuel => calibLoop_all_fail results hfail fuel 0, ?_⟩
  · intro k r hk hfail fuel hlt
    have h1 := calibLoop_first_success results r fuel k 0
      (by simpa using hk) (fun j hj => by simpa using hfail j hj) hlt
    simpa using h1
  · constructor
    · rintro ⟨fuel, w, hw⟩
      by_contra hno
      push_neg at hno
      have hfail : ∀ n, results n = none := by
        intro n
        cases hres : results n with
        | none => rfl
        | some r => exact absurd hres (hno n r)
      rw [calibLoop_all_fail results hfail fuel 0] at hw
      exact Option.noConfusion hw
    · rintro ⟨n, r, hn⟩
      have hex : ∃ m, (results m).isSome := ⟨n, by rw [hn]; rfl⟩
      have hk : (results (Nat.find hex)).isSome := Nat.find_spec hex
      obtain ⟨r2, hr2⟩ : ∃ r2, results (Nat.find hex) = some r2 :=
        Option.isSome_iff_exists.mp hk
      have hfj : ∀ j, j < Nat.find hex → results j = none := by
        intro j hj
        exact Option.not_isSome_iff_eq_none.mp (Nat.find_min hex hj)
      refine ⟨Nat.find hex + 1, (Nat.find hex, calibrate r2), ?_⟩
      have h1 := calibLoop_first_success results r2 (Nat.find hex + 1)
        (Nat.find hex) 0 (by simpa using hr2) (fun j hj => by simpa using hfj j hj)
        (by omega)
      simpa using h1

/-- A read-result sequence whose first success is the second attempt. -/
def demoReads : Nat → Option ℚ := fun n => if n = 1 then some 20 else none

theorem calibration_termination_witness :
    (demoReads 1 = some 20 ∧ demoReads 0 = none)
  ∧ calibLoop demoReads 0 2 = some (1, calibrate 20) := by
  have h := (calibration_termination demoReads).1 1 20 rfl
    (fun j hj => by
      have hj0 : j = 0 := by omega
      rw [hj0]
      rfl)
    2 (by norm_num)
  exact ⟨⟨rfl, rfl⟩, h⟩

end ShtLedDemo
